import Mathlib

/-!
Verification of the AWS-S3-Auto-Downloader batch pipeline
(src/autodownloader.py) against its natural-language specification.

The development shallowly embeds the two components of the program:

* the Range Fetcher (`get_date_range`, `download_files_by_date_range`),
  with calendar dates modelled as year/month/day triples, Gregorian
  month lengths, and the CPython `datetime` behaviour of
  `strptime("%Y-%m-%d")`, `strftime("%Y-%m-%d")`, lexicographic date
  comparison, day increment via `timedelta(days=1)` (which raises
  `OverflowError` past `datetime.max` = 9999-12-31), and `ValueError`
  on malformed date strings;

* the Record Transformer (`process_json_files_to_csv`), with the
  staging directory modelled as an association list from filename to
  file data, a file's data carrying both the result of `json.load`
  on its bytes (`none` when the bytes do not decode to a JSON object)
  and its line content viewed as CSV rows.
-/

/-- A calendar date, the payload of a CPython `datetime` as used by the
program (the time-of-day components stay at zero throughout). -/
structure Date where
  y : Nat
  m : Nat
  d : Nat
deriving DecidableEq, Repr

/-- Gregorian leap-year test, as implemented by CPython `datetime`. -/
def isLeap (y : Nat) : Prop := y % 4 = 0 ∧ (¬ y % 100 = 0 ∨ y % 400 = 0)

instance (y : Nat) : Decidable (isLeap y) := by
  unfold isLeap; exact inferInstance

/-- Number of days of month `m` in year `y` (CPython `calendar` rules). -/
def daysInMonth (y m : Nat) : Nat :=
  if m = 2 then (if isLeap y then 29 else 28)
  else if m = 4 ∨ m = 6 ∨ m = 9 ∨ m = 11 then 30 else 31

/-- The dates representable by CPython `datetime`: year between
`MINYEAR = 1` and `MAXYEAR = 9999`, month and day in range. -/
def ValidDate (x : Date) : Prop :=
  1 ≤ x.y ∧ x.y ≤ 9999 ∧ 1 ≤ x.m ∧ x.m ≤ 12 ∧ 1 ≤ x.d ∧ x.d ≤ daysInMonth x.y x.m

instance (x : Date) : Decidable (ValidDate x) := by
  unfold ValidDate; exact inferInstance

/-- `datetime.max`'s date: 9999-12-31.  Incrementing past it raises
`OverflowError` in CPython. -/
def lastDate : Date := ⟨9999, 12, 31⟩

/-- Lexicographic order on dates; this is how CPython compares
`datetime` values with equal time-of-day. -/
def dateLE (a b : Date) : Prop :=
  a.y < b.y ∨ (a.y = b.y ∧ (a.m < b.m ∨ (a.m = b.m ∧ a.d ≤ b.d)))

instance (a b : Date) : Decidable (dateLE a b) := by
  unfold dateLE; exact inferInstance

/-- Strict version of `dateLE`. -/
def dateLT (a b : Date) : Prop := dateLE a b ∧ a ≠ b

instance (a b : Date) : Decidable (dateLT a b) := by
  unfold dateLT; exact inferInstance

/-- The calendar successor of a date: the effect of
`current_date + timedelta(days=1)` on the date components. -/
def nextDay (x : Date) : Date :=
  if x.d < daysInMonth x.y x.m then ⟨x.y, x.m, x.d + 1⟩
  else if x.m < 12 then ⟨x.y, x.m + 1, 1⟩
  else ⟨x.y + 1, 1, 1⟩

/-- Character for the decimal digit `k % 10`. -/
def dchar (k : Nat) : Char :=
  ['0', '1', '2', '3', '4', '5', '6', '7', '8', '9'].getD (k % 10) '0'

/-- Two-digit zero-padded decimal rendering (`%02d` for `n ≤ 99`). -/
def pad2 (n : Nat) : List Char := [dchar (n / 10), dchar n]

/-- Four-digit zero-padded decimal rendering (`%04d` for `n ≤ 9999`). -/
def pad4 (n : Nat) : List Char :=
  [dchar (n / 1000), dchar (n / 100), dchar (n / 10), dchar n]

/-- Characters of `strftime("%Y-%m-%d")`. -/
def fmtChars (x : Date) : List Char :=
  pad4 x.y ++ '-' :: (pad2 x.m ++ '-' :: pad2 x.d)

/-- `strftime("%Y-%m-%d")`. -/
def formatDate (x : Date) : String := String.mk (fmtChars x)

/-- Numeric value of a run of decimal digit characters (`int` applied to
the digits matched by `strptime`). -/
def digitsVal (l : List Char) : Nat :=
  l.foldl (fun a c => a * 10 + (c.toNat - 48)) 0

/-- Core of `datetime.strptime(s, "%Y-%m-%d")`: `%Y` matches exactly four
digits, `%m` and `%d` match one or two digits, the hyphens are literal,
the whole string must be consumed, and the resulting numbers must form a
representable calendar date (otherwise `ValueError`). -/
def parseChars (l : List Char) : Option Date :=
  match l.span Char.isDigit with
  | (ys, '-' :: r2) =>
    match r2.span Char.isDigit with
    | (ms, '-' :: r4) =>
      match r4.span Char.isDigit with
      | (ds, []) =>
        if ys.length = 4 ∧ (ms.length = 1 ∨ ms.length = 2) ∧
           (ds.length = 1 ∨ ds.length = 2) ∧
           ValidDate ⟨digitsVal ys, digitsVal ms, digitsVal ds⟩
        then some ⟨digitsVal ys, digitsVal ms, digitsVal ds⟩ else none
      | _ => none
    | _ => none
  | _ => none

/-- `datetime.strptime(s, "%Y-%m-%d")`, returning `none` for the
`ValueError` of a malformed date string. -/
def parseDate (s : String) : Option Date := parseChars s.toList

/-- Measure used to show that the date-range loop terminates: strictly
monotone along `nextDay` on valid dates. -/
def mu (x : Date) : Nat := 416 * x.y + 32 * x.m + x.d

theorem daysInMonth_le_31 (y m : Nat) : daysInMonth y m ≤ 31 := by
  unfold daysInMonth; split_ifs <;> omega

theorem daysInMonth_pos (y m : Nat) : 1 ≤ daysInMonth y m := by
  unfold daysInMonth; split_ifs <;> omega

theorem daysInMonth_twelve (y : Nat) : daysInMonth y 12 = 31 := by
  unfold daysInMonth; norm_num

theorem mu_lt_nextDay {x : Date} (h : ValidDate x) : mu x < mu (nextDay x) := by
  obtain ⟨xy, xm, xd⟩ := x
  obtain ⟨h1, h2, h3, h4, h5, h6⟩ := h
  have h31 : daysInMonth xy xm ≤ 31 := daysInMonth_le_31 xy xm
  unfold nextDay mu
  dsimp only at *
  split_ifs <;> dsimp only <;> omega

theorem mu_mono {x z : Date} (hx : ValidDate x) (hxz : dateLE x z) :
    mu x ≤ mu z := by
  obtain ⟨xy, xm, xd⟩ := x
  obtain ⟨zy, zm, zd⟩ := z
  obtain ⟨h1, h2, h3, h4, h5, h6⟩ := hx
  have h31 : daysInMonth xy xm ≤ 31 := daysInMonth_le_31 xy xm
  unfold dateLE at hxz
  unfold mu
  dsimp only at *
  rcases hxz with h | ⟨h, h' | ⟨h', h''⟩⟩ <;> omega

theorem nextDay_valid {x : Date} (h : ValidDate x) (hne : x ≠ lastDate) :
    ValidDate (nextDay x) := by
  obtain ⟨xy, xm, xd⟩ := x
  obtain ⟨h1, h2, h3, h4, h5, h6⟩ := h
  have h31 : daysInMonth xy xm ≤ 31 := daysInMonth_le_31 xy xm
  dsimp only at *
  unfold nextDay
  dsimp only
  split_ifs with hd hm
  · exact ⟨h1, h2, h3, h4, by dsimp only; omega, by dsimp only; omega⟩
  · exact ⟨h1, h2, by dsimp only; omega, by dsimp only; omega,
      by dsimp only; omega, by
        have := daysInMonth_pos xy (xm + 1); dsimp only; omega⟩
  · refine ⟨by dsimp only; omega, ?_, by dsimp only; omega,
      by dsimp only; omega, by dsimp only; omega, by
        have := daysInMonth_pos (xy + 1) 1; dsimp only; omega⟩
    dsimp only
    -- not the last representable date, so the year below is at most 9998
    rcases Nat.lt_or_ge xy 9999 with hy | hy
    · omega
    · exfalso
      apply hne
      have hm12 : xm = 12 := by omega
      have h31' : daysInMonth xy xm = 31 := by
        rw [hm12]; exact daysInMonth_twelve xy
      have hy' : xy = 9999 := by omega
      have hd' : xd = 31 := by omega
      rw [hy', hm12, hd']
      rfl

theorem lastDate_top {x : Date} (hx : ValidDate x) (h : dateLE lastDate x) :
    x = lastDate := by
  obtain ⟨xy, xm, xd⟩ := x
  obtain ⟨h1, h2, h3, h4, h5, h6⟩ := hx
  unfold dateLE lastDate at h
  dsimp only at *
  have h31 : daysInMonth xy xm ≤ 31 := daysInMonth_le_31 xy xm
  have hy : xy = 9999 := by
    rcases h with h | ⟨h, _⟩ <;> omega
  have hm : xm = 12 := by
    rcases h with h | ⟨_, h | ⟨h, _⟩⟩ <;> omega
  have h31' : daysInMonth xy xm = 31 := by
    rw [hm]; exact daysInMonth_twelve xy
  have hd : xd = 31 := by
    rcases h with h | ⟨_, h | ⟨_, h⟩⟩ <;> omega
  rw [lastDate, hy, hm, hd]

theorem dateLE_refl (x : Date) : dateLE x x := by
  unfold dateLE; omega

theorem dateLT_nextDay {x : Date} (h : ValidDate x) : dateLT x (nextDay x) := by
  constructor
  · obtain ⟨xy, xm, xd⟩ := x
    obtain ⟨h1, h2, h3, h4, h5, h6⟩ := h
    dsimp only at *
    unfold nextDay dateLE
    dsimp only
    split_ifs <;> dsimp only <;> omega
  · intro hcontra
    have heq := congrArg mu hcontra
    have hlt := mu_lt_nextDay h
    omega

theorem dateLE_trans {a b c : Date} (h1 : dateLE a b) (h2 : dateLE b c) :
    dateLE a c := by
  unfold dateLE at *
  rcases h1 with h | ⟨h, h' | ⟨h', h''⟩⟩ <;>
    rcases h2 with g | ⟨g, g' | ⟨g', g''⟩⟩ <;> omega

theorem dateLE_antisymm {a b : Date} (h1 : dateLE a b) (h2 : dateLE b a) :
    a = b := by
  obtain ⟨ay, am, ad⟩ := a
  obtain ⟨bY, bm, bd⟩ := b
  unfold dateLE at *
  dsimp only at *
  simp only [Date.mk.injEq]
  rcases h1 with h | ⟨h, h' | ⟨h', h''⟩⟩ <;>
    rcases h2 with g | ⟨g, g' | ⟨g', g''⟩⟩ <;> omega

/-- On valid dates, `nextDay x` is the least date strictly above `x`. -/
theorem nextDay_min {x z : Date} (hx : ValidDate x) (hz : ValidDate z)
    (h : dateLT x z) : dateLE (nextDay x) z := by
  obtain ⟨hle, hne⟩ := h
  obtain ⟨xy, xm, xd⟩ := x
  obtain ⟨zy, zm, zd⟩ := z
  obtain ⟨h1, h2, h3, h4, h5, h6⟩ := hx
  obtain ⟨g1, g2, g3, g4, g5, g6⟩ := hz
  have hne' : ¬ (xy = zy ∧ xm = zm ∧ xd = zd) := by
    intro ⟨e1, e2, e3⟩; exact hne (by rw [e1, e2, e3])
  unfold dateLE at hle
  dsimp only at *
  unfold nextDay dateLE
  dsimp only
  split_ifs with hd hm <;> dsimp only
  · rcases hle with h | ⟨h, h' | ⟨h', h''⟩⟩
    · omega
    · omega
    · subst h; subst h'; omega
  · rcases hle with h | ⟨h, h' | ⟨h', h''⟩⟩
    · omega
    · omega
    · -- same year and month: z.d ≤ daysInMonth ≤ x.d contradicts x < z
      exfalso; subst h; subst h'; omega
  · rcases hle with h | ⟨h, h' | ⟨h', h''⟩⟩
    · omega
    · omega
    · exfalso; subst h; subst h'; omega

/-- The two uncaught exceptions that can escape `get_date_range`:
`ValueError` from `strptime` on a malformed date string, and
`OverflowError` from stepping `datetime` past 9999-12-31. -/
inductive DateErr where
  | format
  | overflow
deriving DecidableEq, Repr

/-- The `while current_date <= end_date` loop of `get_date_range`
(src lines 52-57): append `current_date.strftime("%Y-%m-%d")`, then
`current_date += timedelta(days=1)`, which raises `OverflowError` when
`current_date` is 9999-12-31 (a raise discards the accumulated list). -/
def rangeLoop (e : Date) (cur : Date) (h : ValidDate cur) :
    Except DateErr (List String) :=
  if dateLE cur e then
    if hl : cur = lastDate then .error .overflow
    else
      match rangeLoop e (nextDay cur) (nextDay_valid h hl) with
      | .error er => .error er
      | .ok rest => .ok (formatDate cur :: rest)
  else .ok []
termination_by mu e + 1 - mu cur
decreasing_by
  have h1 := mu_lt_nextDay h
  have h2 := mu_mono h (by assumption)
  omega

theorem parseDate_valid {s : String} {x : Date} (h : parseDate s = some x) :
    ValidDate x := by
  unfold parseDate parseChars at h
  split at h <;> try exact Option.noConfusion h
  split at h <;> try exact Option.noConfusion h
  split at h <;> try exact Option.noConfusion h
  split at h
  · rename_i hcond
    simp only [Option.some.injEq] at h
    rw [← h]
    exact hcond.2.2.2
  · exact Option.noConfusion h

theorem parseDate_isSome_valid {s : String} (h : (parseDate s).isSome) :
    ValidDate ((parseDate s).get h) := by
  have h' : parseDate s = some ((parseDate s).get h) := by
    simp
  exact parseDate_valid h'

/-- `get_date_range(start_date_str, end_date_str)` (src lines 45-57):
`strptime` both inputs, then walk day by day from start to end. -/
def get_date_range (start_date_str end_date_str : String) :
    Except DateErr (List String) :=
  if hs : (parseDate start_date_str).isSome then
    if he : (parseDate end_date_str).isSome then
      rangeLoop ((parseDate end_date_str).get he)
        ((parseDate start_date_str).get hs) (parseDate_isSome_valid hs)
    else .error .format
  else .error .format

theorem get_date_range_ok {s e : String} {a b : Date}
    (hs : parseDate s = some a) (he : parseDate e = some b) :
    ∀ h : ValidDate a, get_date_range s e = rangeLoop b a h := by
  intro h
  unfold get_date_range
  rw [dif_pos (by rw [hs]; rfl)]
  rw [dif_pos (by rw [he]; rfl)]
  congr 1 <;> simp [hs, he]

theorem get_date_range_format_left {s e : String}
    (hs : parseDate s = none) : get_date_range s e = .error .format := by
  unfold get_date_range
  rw [dif_neg (by rw [hs]; simp)]

theorem get_date_range_format_right {s e : String}
    (he : parseDate e = none) : get_date_range s e = .error .format := by
  unfold get_date_range
  by_cases hs : (parseDate s).isSome
  · rw [dif_pos hs, dif_neg (by rw [he]; simp)]
  · rw [dif_neg hs]

theorem rangeLoop_stop {e cur : Date} (h : ValidDate cur)
    (hlt : ¬ dateLE cur e) : rangeLoop e cur h = .ok [] := by
  unfold rangeLoop
  rw [if_neg hlt]

theorem rangeLoop_overflow {e : Date} (h : ValidDate lastDate)
    (hle : dateLE lastDate e) :
    rangeLoop e lastDate h = .error .overflow := by
  unfold rangeLoop
  rw [if_pos hle, dif_pos rfl]

theorem rangeLoop_step {e cur : Date} (h : ValidDate cur)
    (hle : dateLE cur e) (hne : cur ≠ lastDate) :
    rangeLoop e cur h =
      match rangeLoop e (nextDay cur) (nextDay_valid h hne) with
      | .error er => .error er
      | .ok rest => .ok (formatDate cur :: rest) := by
  conv_lhs => rw [rangeLoop]
  rw [if_pos hle, dif_neg hne]

theorem dchar_isDigit (k : Nat) : (dchar k).isDigit = true := by
  unfold dchar
  have hk : k % 10 < 10 := Nat.mod_lt _ (by omega)
  interval_cases h : k % 10 <;> decide

theorem dchar_toNat (k : Nat) : (dchar k).toNat = 48 + k % 10 := by
  unfold dchar
  have hk : k % 10 < 10 := Nat.mod_lt _ (by omega)
  interval_cases h : k % 10 <;> decide

theorem digitsVal_pad2 {n : Nat} (h : n ≤ 99) : digitsVal (pad2 n) = n := by
  unfold digitsVal pad2
  simp only [List.foldl, dchar_toNat]
  omega

theorem digitsVal_pad4 {n : Nat} (h : n ≤ 9999) : digitsVal (pad4 n) = n := by
  unfold digitsVal pad4
  simp only [List.foldl, dchar_toNat]
  omega

theorem span_pad4 (n : Nat) (r : List Char) :
    (pad4 n ++ '-' :: r).span Char.isDigit = (pad4 n, '-' :: r) := by
  unfold pad4
  simp [List.span_eq_take_drop, List.takeWhile, List.dropWhile, dchar_isDigit]

theorem span_pad2 (n : Nat) (r : List Char) :
    (pad2 n ++ '-' :: r).span Char.isDigit = (pad2 n, '-' :: r) := by
  unfold pad2
  simp [List.span_eq_take_drop, List.takeWhile, List.dropWhile, dchar_isDigit]

theorem span_pad2_nil (n : Nat) :
    (pad2 n).span Char.isDigit = (pad2 n, []) := by
  unfold pad2
  simp [List.span_eq_take_drop, List.takeWhile, List.dropWhile, dchar_isDigit]

theorem parseChars_fmtChars {x : Date} (h : ValidDate x) :
    parseChars (fmtChars x) = some x := by
  obtain ⟨xy, xm, xd⟩ := x
  obtain ⟨h1, h2, h3, h4, h5, h6⟩ := h
  have h31 : daysInMonth xy xm ≤ 31 := daysInMonth_le_31 xy xm
  dsimp only at *
  unfold fmtChars parseChars
  simp only [span_pad4, span_pad2, span_pad2_nil]
  have hy : digitsVal (pad4 xy) = xy := digitsVal_pad4 (by omega)
  have hm : digitsVal (pad2 xm) = xm := digitsVal_pad2 (by omega)
  have hd : digitsVal (pad2 xd) = xd := digitsVal_pad2 (by omega)
  rw [if_pos]
  · rw [hy, hm, hd]
  · refine ⟨by simp [pad4], Or.inr (by simp [pad2]), Or.inr (by simp [pad2]), ?_⟩
    rw [hy, hm, hd]
    exact ⟨h1, h2, h3, h4, h5, h6⟩

/-- Round trip: `strptime` applied to the canonical `YYYY-MM-DD` rendering
of a representable date gives back that date. -/
theorem parse_format {x : Date} (h : ValidDate x) :
    parseDate (formatDate x) = some x :=
  parseChars_fmtChars h

theorem dateLT_of_lt_of_le {a b c : Date} (h1 : dateLT a b) (h2 : dateLE b c) :
    dateLT a c := by
  refine ⟨dateLE_trans h1.1 h2, fun he => ?_⟩
  exact h1.2 (dateLE_antisymm h1.1 (he ▸ h2))

/-- What the date-range loop produces when it does not overflow: the
formatted images of a list of dates that contains exactly the valid dates
between the two bounds, in strictly ascending order, starting at the
lower bound. -/
def RangeSpec (a b : Date) (L : List String) : Prop :=
  ∃ D : List Date, L = D.map formatDate ∧
    (∀ x : Date, x ∈ D ↔ (ValidDate x ∧ dateLE a x ∧ dateLE x b)) ∧
    List.Chain' dateLT D ∧
    (dateLE a b → D.head? = some a)

theorem rangeLoop_ok : ∀ (n : Nat) (cur : Date) (h : ValidDate cur)
    (b : Date), ValidDate b → b ≠ lastDate → mu b + 1 - mu cur ≤ n →
    ∃ L, rangeLoop b cur h = .ok L ∧ RangeSpec cur b L := by
  intro n
  induction n with
  | zero =>
    intro cur h b hb hlast hn
    have hnot : ¬ dateLE cur b := by
      intro hle
      have := mu_mono h hle
      omega
    refine ⟨[], rangeLoop_stop h hnot, [], rfl, ?_, List.chain'_nil,
      fun hle => absurd hle hnot⟩
    intro x
    simp only [List.not_mem_nil, false_iff]
    rintro ⟨hv, hcx, hxb⟩
    exact hnot (dateLE_trans hcx hxb)
  | succ n ih =>
    intro cur h b hb hlast hn
    by_cases hle : dateLE cur b
    · have hne : cur ≠ lastDate := by
        intro hcl
        exact hlast (lastDate_top hb (hcl ▸ hle))
      obtain ⟨L', hL', D', hD', hmem', hchain', hhead'⟩ :=
        ih (nextDay cur) (nextDay_valid h hne) b hb hlast
          (by have := mu_lt_nextDay h; have := mu_mono h hle; omega)
      refine ⟨formatDate cur :: L', ?_, cur :: D', by simp [hD'], ?_, ?_, ?_⟩
      · rw [rangeLoop_step h hle hne, hL']
      · intro x
        simp only [List.mem_cons, hmem' x]
        constructor
        · rintro (rfl | ⟨hv, hnx, hxb⟩)
          · exact ⟨h, dateLE_refl x, hle⟩
          · exact ⟨hv, dateLE_trans (dateLT_nextDay h).1 hnx, hxb⟩
        · rintro ⟨hv, hcx, hxb⟩
          by_cases hxc : x = cur
          · exact Or.inl hxc
          · exact Or.inr ⟨hv,
              nextDay_min h hv ⟨hcx, fun he => hxc he.symm⟩, hxb⟩
      · rw [List.chain'_cons']
        refine ⟨?_, hchain'⟩
        intro z hz
        have hzD : z ∈ D' := List.mem_of_mem_head? hz
        obtain ⟨hzv, hznx, hzb⟩ := (hmem' z).1 hzD
        exact dateLT_of_lt_of_le (dateLT_nextDay h) hznx
      · intro _
        rfl
    · refine ⟨[], rangeLoop_stop h hle, [], rfl, ?_, List.chain'_nil,
        fun hle' => absurd hle' hle⟩
      intro x
      simp only [List.not_mem_nil, false_iff]
      rintro ⟨hv, hcx, hxb⟩
      exact hle (dateLE_trans hcx hxb)

/-- Claim C1 (amended): for every pair of `YYYY-MM-DD` date strings whose
end date is not 9999-12-31, `get_date_range` returns the list of every
calendar day from start to end inclusive, in strictly ascending order;
when start equals end it returns the one-element list holding that
string, and when start is later than end it returns the empty list.
(The unamended claim fails when the end date is 9999-12-31: the loop
then raises `OverflowError` when stepping past `datetime.max`, see the
counterexample.) -/
theorem c1_expand_date_range (a b : Date) (ha : ValidDate a)
    (hb : ValidDate b) (hmax : b ≠ lastDate) :
    ∃ L, get_date_range (formatDate a) (formatDate b) = .ok L ∧
      (∃ D : List Date, L = D.map formatDate ∧
        (∀ x : Date, x ∈ D ↔ (ValidDate x ∧ dateLE a x ∧ dateLE x b)) ∧
        List.Chain' dateLT D) ∧
      (a = b → L = [formatDate a]) ∧
      (dateLT b a → L = []) := by
  obtain ⟨L, hL, D, hD, hmem, hchain, hhead⟩ :=
    rangeLoop_ok (mu b + 1 - mu a) a ha b hb hmax le_rfl
  refine ⟨L, ?_, ⟨D, hD, hmem, hchain⟩, ?_, ?_⟩
  · rw [get_date_range_ok (parse_format ha) (parse_format hb) ha]
    exact hL
  · rintro rfl
    have hh := hhead (dateLE_refl a)
    obtain ⟨D', rfl⟩ : ∃ D', D = a :: D' := by
      cases D with
      | nil => exact absurd hh (by simp)
      | cons z D' =>
        refine ⟨D', ?_⟩
        simp only [List.head?] at hh
        rw [Option.some.injEq] at hh
        rw [hh]
    have hD' : D' = [] := by
      cases D' with
      | nil => rfl
      | cons z D'' =>
        exfalso
        have hz : z ∈ a :: z :: D'' := by simp
        obtain ⟨hzv, haz, hza⟩ := (hmem z).1 hz
        have hza' : z = a := dateLE_antisymm hza haz
        have := (List.chain'_cons.1 hchain).1
        exact this.2 (by rw [hza'])
    rw [hD, hD']
    rfl
  · intro hba
    have hD0 : D = [] := by
      rw [List.eq_nil_iff_forall_not_mem]
      intro x hx
      obtain ⟨hxv, hax, hxb⟩ := (hmem x).1 hx
      exact hba.2 (dateLE_antisymm hba.1 (dateLE_trans hax hxb))
    rw [hD, hD0]
    rfl

theorem c1_expand_date_range_witness :
    ValidDate ⟨2025, 3, 1⟩ ∧ ValidDate ⟨2025, 3, 3⟩ ∧
    (⟨2025, 3, 3⟩ : Date) ≠ lastDate ∧
    (∃ L, get_date_range (formatDate ⟨2025, 3, 1⟩)
        (formatDate ⟨2025, 3, 3⟩) = .ok L ∧
      (∃ D : List Date, L = D.map formatDate ∧
        (∀ x : Date, x ∈ D ↔
          (ValidDate x ∧ dateLE ⟨2025, 3, 1⟩ x ∧ dateLE x ⟨2025, 3, 3⟩)) ∧
        List.Chain' dateLT D) ∧
      ((⟨2025, 3, 1⟩ : Date) = ⟨2025, 3, 3⟩ → L = [formatDate ⟨2025, 3, 1⟩]) ∧
      (dateLT ⟨2025, 3, 3⟩ ⟨2025, 3, 1⟩ → L = [])) :=
  ⟨by decide, by decide, by decide,
    c1_expand_date_range ⟨2025, 3, 1⟩ ⟨2025, 3, 3⟩
      (by decide) (by decide) (by decide)⟩

/-- Counterexample to claim C1 as stated: with start = end = "9999-12-31"
the code raises `OverflowError` (from `datetime + timedelta(days=1)`
past `datetime.max`) instead of returning `["9999-12-31"]`. -/
theorem c1_counterexample :
    get_date_range "9999-12-31" "9999-12-31" = .error .overflow ∧
    get_date_range "9999-12-31" "9999-12-31" ≠ .ok ["9999-12-31"] := by
  have hp : parseDate "9999-12-31" = some ⟨9999, 12, 31⟩ := by decide
  have hv : ValidDate (⟨9999, 12, 31⟩ : Date) := by decide
  have h1 : get_date_range "9999-12-31" "9999-12-31"
      = rangeLoop ⟨9999, 12, 31⟩ ⟨9999, 12, 31⟩ hv :=
    get_date_range_ok hp hp hv
  have h2 : rangeLoop ⟨9999, 12, 31⟩ ⟨9999, 12, 31⟩ hv = .error .overflow :=
    rangeLoop_overflow hv (dateLE_refl _)
  rw [h1, h2]
  exact ⟨rfl, by simp⟩

/-!
Record Transformer: filename matching.

`process_json_files_to_csv` matches each staged filename against the
regular expression (src line 109)

  (\d{4}-\d{2}-\d{2})_.*-([0-9A-Za-z]+)-sensor-data\.json

with `re.match` (anchored at the start of the string, not at the end).
The fixed-shape day group and the following literal underscore consume
the first eleven characters; the greedy `.*` then commits to the
rightmost position at which `-([0-9A-Za-z]+)-sensor-data\.json` matches,
and the character class is ASCII-only.
-/

/-- ASCII `[0-9A-Za-z]`. -/
def isAlnumCh (c : Char) : Bool :=
  c.isDigit || (('A' ≤ c && c ≤ 'Z') || ('a' ≤ c && c ≤ 'z'))

/-- Shape of the first regex group plus separators:
`\d{4}-\d{2}-\d{2}` as a ten-character block. -/
def dayShape (l : List Char) : Bool :=
  match l with
  | [a, b, c, d, e, f, g, h, i, j] =>
    a.isDigit && b.isDigit && c.isDigit && d.isDigit && (e == '-') &&
    f.isDigit && g.isDigit && (h == '-') && i.isDigit && j.isDigit
  | _ => false

/-- Match of the anchored part `(\d{4}-\d{2}-\d{2})_` of the pattern:
returns the day group and the remainder after the underscore. -/
def matchDay (l : List Char) : Option (List Char × List Char) :=
  if dayShape (l.take 10) then
    match l.drop 10 with
    | '_' :: rest => some (l.take 10, rest)
    | _ => none
  else none

/-- The literal tail of the pattern after the sensor-id group:
`-sensor-data\.json`. -/
def sdTail : List Char := "-sensor-data.json".toList

/-- Attempt to match `-([0-9A-Za-z]+)-sensor-data\.json` at the head of
`l` (anything may follow, since the regex has no end anchor); returns
the group on success.  The greedy `[0-9A-Za-z]+` never has to give
characters back because the following literal starts with a hyphen,
which is not in the class. -/
def tailMatch (l : List Char) : Option (List Char) :=
  match l with
  | c :: t =>
    if c = '-' then
      match t.span isAlnumCh with
      | (run, rest) =>
        if run.isEmpty then none
        else if sdTail.isPrefixOf rest then some run else none
    else none
  | [] => none

/-- Greedy `.*` followed by `tailMatch`: the match is attempted at every
start position of `l`, rightmost first — the backtracking order of a
greedy `.*`. -/
def scanTail (l : List Char) : Option (List Char) :=
  match l with
  | [] => none
  | _ :: r =>
    match scanTail r with
    | some g => some g
    | none => tailMatch l

/-- `re.match` of the full filename pattern: the day group and the
sensor-set-id group. -/
def matchSensorPattern (s : String) : Option (String × String) :=
  match matchDay s.toList with
  | none => none
  | some (dayl, rest) =>
    match scanTail rest with
    | none => none
    | some run => some (String.mk dayl, String.mk run)

theorem isAlnumCh_hyphen : isAlnumCh '-' = false := by decide

theorem takeWhile_run {g : List Char} (t : List Char)
    (hg : g.all isAlnumCh = true) :
    (g ++ '-' :: t).takeWhile isAlnumCh = g := by
  induction g with
  | nil => simp [List.takeWhile, isAlnumCh_hyphen]
  | cons c g' ih =>
    simp only [List.all_cons, Bool.and_eq_true] at hg
    simp [List.takeWhile, hg.1, ih hg.2]

theorem dropWhile_run {g : List Char} (t : List Char)
    (hg : g.all isAlnumCh = true) :
    (g ++ '-' :: t).dropWhile isAlnumCh = '-' :: t := by
  induction g with
  | nil => simp [List.dropWhile, isAlnumCh_hyphen]
  | cons c g' ih =>
    simp only [List.all_cons, Bool.and_eq_true] at hg
    simp [List.dropWhile, hg.1, ih hg.2]

theorem isPrefixOf_exists {l1 l2 : List Char} :
    l1.isPrefixOf l2 = true ↔ ∃ t, l2 = l1 ++ t := by
  induction l1 generalizing l2 with
  | nil => simp [List.isPrefixOf]
  | cons a l1' ih =>
    cases l2 with
    | nil => simp [List.isPrefixOf]
    | cons b l2' =>
      simp only [List.isPrefixOf, Bool.and_eq_true, beq_iff_eq, ih,
        List.cons_append, List.cons.injEq]
      constructor
      · rintro ⟨rfl, t, rfl⟩
        exact ⟨t, rfl, rfl⟩
      · rintro ⟨t, rfl, rfl⟩
        exact ⟨rfl, t, rfl⟩

theorem sdTail_cons : sdTail = '-' :: "sensor-data.json".toList := rfl

theorem tailMatch_eq_some {q g : List Char} :
    tailMatch q = some g ↔
      (g ≠ [] ∧ g.all isAlnumCh = true ∧
        ∃ t, q = '-' :: (g ++ sdTail ++ t)) := by
  constructor
  · intro h
    rcases q with _ | ⟨c, t0⟩
    · exact Option.noConfusion h
    · unfold tailMatch at h
      dsimp only at h
      rw [List.span_eq_take_drop] at h
      dsimp only at h
      split_ifs at h with hc h1 h2 <;> try exact Option.noConfusion h
      subst hc
      rw [Option.some.injEq] at h
      subst h
      refine ⟨fun hnil => by rw [hnil] at h1; exact h1 rfl,
        List.all_takeWhile, ?_⟩
      obtain ⟨t, ht⟩ := isPrefixOf_exists.1 h2
      refine ⟨t, ?_⟩
      have hsplit := List.takeWhile_append_dropWhile isAlnumCh t0
      rw [List.append_assoc, ← ht, hsplit]
  · rintro ⟨hne, hall, t, rfl⟩
    unfold tailMatch
    dsimp only
    rw [if_pos rfl]
    rw [List.span_eq_take_drop]
    dsimp only
    rw [show g ++ sdTail ++ t = g ++ '-' :: ("sensor-data.json".toList ++ t) by
      rw [sdTail_cons, List.append_assoc]; rfl]
    rw [takeWhile_run _ hall, dropWhile_run _ hall]
    rw [if_neg (by simp [hne])]
    rw [if_pos]
    exact isPrefixOf_exists.2 ⟨t, by rw [sdTail_cons]; rfl⟩

theorem scanTail_none_tail {l : List Char} (h : scanTail l = none) :
    ∀ k, tailMatch (l.drop k) = none := by
  induction l with
  | nil =>
    intro k
    rw [List.drop_nil]
    rfl
  | cons c r ih =>
    unfold scanTail at h
    rcases hs : scanTail r with _ | g
    · rw [hs] at h
      intro k
      cases k with
      | zero => exact h
      | succ k' => exact ih hs k'
    · rw [hs] at h
      exact Option.noConfusion h

theorem scanTail_some {l g : List Char} (h : scanTail l = some g) :
    ∃ i, tailMatch (l.drop i) = some g ∧
      ∀ j, i < j → tailMatch (l.drop j) = none := by
  induction l with
  | nil => exact Option.noConfusion h
  | cons c r ih =>
    unfold scanTail at h
    rcases hs : scanTail r with _ | g'
    · rw [hs] at h
      refine ⟨0, h, ?_⟩
      intro j hj
      obtain ⟨j', rfl⟩ : ∃ j', j = j' + 1 := ⟨j - 1, by omega⟩
      rw [List.drop_succ_cons]
      exact scanTail_none_tail hs j'
    · rw [hs] at h
      rw [Option.some.injEq] at h
      subst h
      obtain ⟨i, h1, h2⟩ := ih hs
      refine ⟨i + 1, by rw [List.drop_succ_cons]; exact h1, ?_⟩
      intro j hj
      obtain ⟨j', rfl⟩ : ∃ j', j = j' + 1 := ⟨j - 1, by omega⟩
      rw [List.drop_succ_cons]
      exact h2 j' (by omega)

theorem matchDay_eq_some {l dayl rest : List Char}
    (h : matchDay l = some (dayl, rest)) :
    dayl = l.take 10 ∧ dayShape dayl = true ∧ l = dayl ++ '_' :: rest := by
  unfold matchDay at h
  split_ifs at h with h1 <;> try exact Option.noConfusion h
  split at h <;> try exact Option.noConfusion h
  rename_i rest' heq
  rw [Option.some.injEq, Prod.mk.injEq] at h
  obtain ⟨rfl, rfl⟩ := h
  refine ⟨rfl, h1, ?_⟩
  conv_lhs => rw [← List.take_append_drop 10 l]
  rw [heq]

/-- Claim C2: when a staged filename matches the naming convention, the
transformer extracts as day key the leading ten characters, which have
the `YYYY-MM-DD` digit shape and are followed by an underscore, and as
sensor id the last hyphen-delimited nonempty alphanumeric run that
immediately precedes the literal `-sensor-data.json`; "last" is
expressed by the final conjunct: no decomposition of the remainder
places such a run further to the right.  The derived output filename is
`<day>-<sensor_id>.csv` (see the witness for the concrete example). -/
theorem c2_filename_parsing (s day sid : String)
    (h : matchSensorPattern s = some (day, sid)) :
    day.toList = s.toList.take 10 ∧ dayShape day.toList = true ∧
    ∃ u t : List Char,
      s.toList = day.toList ++ '_' ::
        (u ++ '-' :: (sid.toList ++ sdTail ++ t)) ∧
      sid.toList ≠ [] ∧ sid.toList.all isAlnumCh = true ∧
      (∀ u' g' t', g' ≠ [] → g'.all isAlnumCh = true →
        u ++ '-' :: (sid.toList ++ sdTail ++ t)
          = u' ++ '-' :: (g' ++ sdTail ++ t') →
        u'.length ≤ u.length) := by
  unfold matchSensorPattern at h
  rcases hm : matchDay s.toList with _ | ⟨dayl, rest⟩
  · rw [hm] at h; exact Option.noConfusion h
  · rw [hm] at h
    dsimp only at h
    rcases hs : scanTail rest with _ | run
    · rw [hs] at h; exact Option.noConfusion h
    · rw [hs] at h
      dsimp only at h
      rw [Option.some.injEq, Prod.mk.injEq] at h
      obtain ⟨rfl, rfl⟩ := h
      obtain ⟨htake, hshape, hsplit⟩ := matchDay_eq_some hm
      obtain ⟨i, hi, hlater⟩ := scanTail_some hs
      obtain ⟨hne, hall, t, hdrop⟩ := tailMatch_eq_some.1 hi
      have hrest : rest = rest.take i ++ '-' :: (run ++ sdTail ++ t) := by
        conv_lhs => rw [← List.take_append_drop i rest]
        rw [hdrop]
      have hilen : i ≤ rest.length := by
        by_contra hgt
        rw [List.drop_eq_nil_of_le (by omega)] at hdrop
        exact List.noConfusion hdrop
      have hulen : (rest.take i).length = i := by
        rw [List.length_take]
        omega
      refine ⟨htake, hshape, rest.take i, t, ?_, hne, hall, ?_⟩
      · show s.toList = dayl ++ '_' ::
          (rest.take i ++ '-' :: (run ++ sdTail ++ t))
        rw [hsplit, ← hrest]
      · intro u' g' t' hg'ne hg'all hEq
        have hEq' : rest.take i ++ '-' :: (run ++ sdTail ++ t)
            = u' ++ '-' :: (g' ++ sdTail ++ t') := hEq
        by_contra hlt
        have hrest' : rest = u' ++ '-' :: (g' ++ sdTail ++ t') := by
          rw [hrest, hEq']
        have htm : tailMatch (rest.drop u'.length) = some g' := by
          rw [hrest', List.drop_left]
          exact tailMatch_eq_some.2 ⟨hg'ne, hg'all, t', rfl⟩
        have hnone : tailMatch (rest.drop u'.length) = none := by
          refine hlater u'.length ?_
          have hul : (rest.take i).length ≤ u'.length → i < u'.length := by
            omega
          omega
        rw [htm] at hnone
        exact Option.noConfusion hnone

theorem c2_filename_parsing_witness :
    matchSensorPattern "2025-03-05_00-01-18-AB12-sensor-data.json"
      = some ("2025-03-05", "AB12") ∧
    "2025-03-05" ++ "-" ++ "AB12" ++ ".csv" = "2025-03-05-AB12.csv" ∧
    ("2025-03-05" : String).toList
      = ("2025-03-05_00-01-18-AB12-sensor-data.json" : String).toList.take 10 ∧
    dayShape ("2025-03-05" : String).toList = true ∧
    ∃ u t : List Char,
      ("2025-03-05_00-01-18-AB12-sensor-data.json" : String).toList
        = ("2025-03-05" : String).toList ++ '_' ::
          (u ++ '-' :: (("AB12" : String).toList ++ sdTail ++ t)) ∧
      ("AB12" : String).toList ≠ [] ∧
      ("AB12" : String).toList.all isAlnumCh = true ∧
      (∀ u' g' t', g' ≠ [] → g'.all isAlnumCh = true →
        u ++ '-' :: (("AB12" : String).toList ++ sdTail ++ t)
          = u' ++ '-' :: (g' ++ sdTail ++ t') →
        u'.length ≤ u.length) := by
  have hm : matchSensorPattern "2025-03-05_00-01-18-AB12-sensor-data.json"
      = some ("2025-03-05", "AB12") := by decide
  have hc := c2_filename_parsing
    "2025-03-05_00-01-18-AB12-sensor-data.json" "2025-03-05" "AB12" hm
  exact ⟨hm, by decide, hc.1, hc.2.1, hc.2.2⟩

/-!
Record Transformer: directory state and per-file processing.

`process_json_files_to_csv(directory)` takes a snapshot of the directory
listing (`os.listdir`), then for each name ending in `.json`: decodes
the file as JSON, pops the four excluded keys, matches the filename
pattern, appends one CSV row (with a header row first if the output file
does not exist yet), and deletes the staged file; any failure for one
file is caught and processing continues with the next file.

The directory is an association list from filename to file data.  A
file's data records both views the program takes of its bytes: `asJson`
is the result of `json.load` (`some r` when the bytes decode to a JSON
object with fields `r`, `none` when decoding fails or yields a non-dict,
which makes the subsequent `.pop` raise), and `asRows` is the file's
content viewed as CSV rows.  Appending a CSV line to a file leaves its
bytes undecodable as a single JSON document, and appended files are
`.csv`-named and never decoded again, so `asJson` is cleared on write.
-/

/-- A decoded JSON object: field names with (rendered) scalar values, in
insertion order, as produced by `json.load`.  Values are opaque to the
program except for being written out, so they are plain strings here. -/
abbrev Record := List (String × String)

/-- `keys_to_exclude` (src line 112). -/
def keys_to_exclude : List String :=
  ["DATA_GREENHOUSE_ID", "DATA_SENSOR_NAME", "DATA_MOBILE_NUM",
   "DATA_DATETIMESTAMP"]

/-- `data.pop(key, None)`: drop the entry with the given field name if
present (JSON object keys are unique, so at most one entry matches). -/
def popKey (r : Record) (k : String) : Record :=
  r.filter (fun kv => decide (kv.1 ≠ k))

/-- The loop `for key in keys_to_exclude: data.pop(key, None)`
(src lines 123-124). -/
def removeKeys (r : Record) : Record :=
  keys_to_exclude.foldl popKey r

/-- `list(data.keys())`: the `fieldnames` given to `csv.DictWriter`
(src line 140). -/
def headerOf (r : Record) : List String := r.map Prod.fst

/-- The values written by `writer.writerow(data)`, in fieldname order. -/
def rowOf (r : Record) : List String := r.map Prod.snd

/-- The two views of one file's bytes (see the section comment). -/
structure FData where
  asJson : Option Record
  asRows : List (List String)
deriving DecidableEq, Repr

/-- A directory: filenames with contents, in listing order. -/
abbrev FS := List (String × FData)

/-- `filename.endswith(".json")` (src line 116). -/
def endsJson (n : String) : Bool := ".json".toList.isSuffixOf n.toList

/-- Writing to a file path: replace the content if the name exists,
otherwise create it at the end of the directory. -/
def setFile (fs : FS) (n : String) (d : FData) : FS :=
  if (List.lookup n fs).isSome then
    fs.map (fun p => if p.1 = n then (n, d) else p)
  else fs ++ [(n, d)]

/-- `os.remove`: drop the entry with the given name. -/
def eraseFile (fs : FS) (n : String) : FS :=
  fs.filter (fun p => decide (p.1 ≠ n))

/-- The body of the `for filename in os.listdir(directory)` loop
(src lines 115-150) acting on the directory state.  Every failing step
(missing file, JSON decode error or non-dict content, pattern mismatch)
is caught by the `try`/`except`, leaving the state unchanged for that
file. -/
def processFile (fs : FS) (filename : String) : FS :=
  if endsJson filename then
    match List.lookup filename fs with
    | none => fs
    | some fd =>
      match fd.asJson with
      | none => fs
      | some data0 =>
        match matchSensorPattern filename with
        | none => fs
        | some (day, sid) =>
          let data := removeKeys data0
          let csvName := day ++ "-" ++ sid ++ ".csv"
          let newRows :=
            match List.lookup csvName fs with
            | some e => e.asRows ++ [rowOf data]
            | none => [headerOf data, rowOf data]
          eraseFile (setFile fs csvName ⟨none, newRows⟩) filename
  else fs

/-- `process_json_files_to_csv(directory)` (src lines 97-150): fold the
per-file step over the snapshot of the directory listing. -/
def process_json_files_to_csv (fs : FS) : FS :=
  (fs.map Prod.fst).foldl processFile fs

theorem toList_append (s t : String) :
    (s ++ t).toList = s.toList ++ t.toList := by
  cases s
  cases t
  rfl

theorem isSuffixOf_exists {l1 l2 : List Char} :
    l1.isSuffixOf l2 = true ↔ ∃ t, l2 = t ++ l1 := by
  unfold List.isSuffixOf
  rw [isPrefixOf_exists]
  constructor
  · rintro ⟨t, ht⟩
    refine ⟨t.reverse, ?_⟩
    have := congrArg List.reverse ht
    rw [List.reverse_reverse, List.reverse_append, List.reverse_reverse]
      at this
    exact this
  · rintro ⟨t, rfl⟩
    exact ⟨t.reverse, by rw [List.reverse_append]⟩

theorem endsJson_append_csv (s : String) : endsJson (s ++ ".csv") = false := by
  unfold endsJson
  rw [Bool.eq_false_iff]
  intro h
  obtain ⟨t, ht⟩ := isSuffixOf_exists.1 h
  rw [toList_append] at ht
  have h2 := congrArg List.reverse ht
  rw [List.reverse_append, List.reverse_append] at h2
  rw [show (".csv" : String).toList.reverse = ['v', 's', 'c', '.'] from rfl,
    show (".json" : String).toList.reverse = ['n', 'o', 's', 'j', '.']
      from rfl] at h2
  simp only [List.cons_append] at h2
  injection h2 with hc _
  exact absurd hc (by decide)

theorem json_ne_csvName {n q : String} (h : endsJson n = true) :
    n ≠ q ++ ".csv" := by
  intro he
  rw [he, endsJson_append_csv] at h
  exact Bool.noConfusion h

theorem lookup_cons_eq (l : FS) (k : String) (v : FData) :
    List.lookup k ((k, v) :: l) = some v := by
  simp [List.lookup]

theorem lookup_cons_ne (l : FS) {a k : String} (v : FData) (h : a ≠ k) :
    List.lookup a ((k, v) :: l) = List.lookup a l := by
  simp [List.lookup, beq_eq_false_iff_ne.2 h]

theorem lookup_map_set_self (fs : FS) (n : String) (d : FData)
    (h : (List.lookup n fs).isSome = true) :
    List.lookup n (fs.map (fun p => if p.1 = n then (n, d) else p))
      = some d := by
  induction fs with
  | nil => simp [List.lookup] at h
  | cons p fs' ih =>
    obtain ⟨k, v⟩ := p
    by_cases hk : k = n
    · subst hk
      rw [List.map_cons, if_pos rfl]
      exact lookup_cons_eq _ _ _
    · have hnk : n ≠ k := fun he => hk he.symm
      rw [List.map_cons, if_neg hk, lookup_cons_ne _ _ hnk]
      rw [lookup_cons_ne _ _ hnk] at h
      exact ih h

theorem lookup_map_set_ne (fs : FS) {m n : String} (d : FData)
    (hmn : m ≠ n) :
    List.lookup m (fs.map (fun p => if p.1 = n then (n, d) else p))
      = List.lookup m fs := by
  induction fs with
  | nil => rfl
  | cons p fs' ih =>
    obtain ⟨k, v⟩ := p
    by_cases hk : k = n
    · subst hk
      rw [List.map_cons, if_pos rfl, lookup_cons_ne _ _ hmn,
        lookup_cons_ne _ _ hmn]
      exact ih
    · rw [List.map_cons, if_neg hk]
      by_cases hm : m = k
      · subst hm
        rw [lookup_cons_eq, lookup_cons_eq]
      · rw [lookup_cons_ne _ _ hm, lookup_cons_ne _ _ hm]
        exact ih

theorem lookup_setFile_self (fs : FS) (n : String) (d : FData) :
    List.lookup n (setFile fs n d) = some d := by
  unfold setFile
  split_ifs with h
  · exact lookup_map_set_self fs n d h
  · rw [List.lookup_append]
    rw [Option.not_isSome_iff_eq_none.1 h]
    rw [Option.none_or]
    exact lookup_cons_eq _ _ _

theorem lookup_setFile_ne (fs : FS) {m n : String} (d : FData)
    (hmn : m ≠ n) :
    List.lookup m (setFile fs n d) = List.lookup m fs := by
  unfold setFile
  split_ifs with h
  · exact lookup_map_set_ne fs d hmn
  · rw [List.lookup_append]
    rw [show List.lookup m [(n, d)] = none by
      rw [lookup_cons_ne _ _ hmn]; rfl]
    rw [Option.or_none]

theorem lookup_eraseFile_self (fs : FS) (n : String) :
    List.lookup n (eraseFile fs n) = none := by
  unfold eraseFile
  induction fs with
  | nil => rfl
  | cons p fs' ih =>
    obtain ⟨k, v⟩ := p
    by_cases hk : k = n
    · subst hk
      rw [List.filter_cons_of_neg (by simp)]
      exact ih
    · rw [List.filter_cons_of_pos (by simp [hk])]
      rw [lookup_cons_ne _ _ (fun he => hk he.symm)]
      exact ih

theorem lookup_eraseFile_ne (fs : FS) {m n : String} (hmn : m ≠ n) :
    List.lookup m (eraseFile fs n) = List.lookup m fs := by
  unfold eraseFile
  induction fs with
  | nil => rfl
  | cons p fs' ih =>
    obtain ⟨k, v⟩ := p
    by_cases hk : k = n
    · subst hk
      rw [List.filter_cons_of_neg (by simp)]
      rw [lookup_cons_ne _ _ hmn]
      exact ih
    · rw [List.filter_cons_of_pos (by simp [hk])]
      by_cases hm : m = k
      · subst hm
        rw [lookup_cons_eq, lookup_cons_eq]
      · rw [lookup_cons_ne _ _ hm, lookup_cons_ne _ _ hm]
        exact ih

theorem processFile_not_json {n : String} (fs : FS)
    (h : endsJson n = false) : processFile fs n = fs := by
  unfold processFile
  rw [if_neg (by rw [h]; exact Bool.false_ne_true)]

theorem processFile_skip {fs : FS} {n : String} {fd : FData}
    (hn : endsJson n = true) (h : List.lookup n fs = some fd)
    (hbad : fd.asJson = none ∨ matchSensorPattern n = none) :
    processFile fs n = fs := by
  rcases hbad with hb | hb
  · simp only [processFile, hn, h, hb, if_true]
  · rcases hj : fd.asJson with _ | r
    · simp only [processFile, hn, h, hj, if_true]
    · simp only [processFile, hn, h, hj, hb, if_true]

theorem processFile_write {fs : FS} {n day sid : String} {fd : FData}
    {r : Record} (hn : endsJson n = true)
    (h : List.lookup n fs = some fd) (hj : fd.asJson = some r)
    (hp : matchSensorPattern n = some (day, sid)) :
    processFile fs n =
      eraseFile (setFile fs (day ++ "-" ++ sid ++ ".csv")
        ⟨none,
          match List.lookup (day ++ "-" ++ sid ++ ".csv") fs with
          | some e => e.asRows ++ [rowOf (removeKeys r)]
          | none => [headerOf (removeKeys r), rowOf (removeKeys r)]⟩) n := by
  simp only [processFile, hn, h, hj, hp, if_true]

theorem processFile_frame_json {fs : FS} {n : String} (m : String)
    (hn : endsJson n = true) (hm : m ≠ n) :
    List.lookup n (processFile fs m) = List.lookup n fs := by
  by_cases hq : endsJson m
  · rcases hlm : List.lookup m fs with _ | fdm
    · simp only [processFile, hq, hlm, if_true]
    · rcases hj : fdm.asJson with _ | r
      · simp only [processFile, hq, hlm, hj, if_true]
      · rcases hp : matchSensorPattern m with _ | ⟨day, sid⟩
        · simp only [processFile, hq, hlm, hj, hp, if_true]
        · rw [processFile_write hq hlm hj hp]
          rw [lookup_eraseFile_ne _ (fun he => hm he.symm)]
          exact lookup_setFile_ne _ _ (json_ne_csvName hn)
  · rw [processFile_not_json fs (Bool.not_eq_true _ ▸ hq)]

theorem processFile_append_only {fs : FS} {n : String} {fd : FData}
    (m : String) (hn : endsJson n = false)
    (h : List.lookup n fs = some fd) :
    ∃ fd1, List.lookup n (processFile fs m) = some fd1 ∧
      ∃ t, fd1.asRows = fd.asRows ++ t := by
  by_cases hq : endsJson m
  · have hmn : m ≠ n := by
      intro he
      rw [he, hn] at hq
      exact Bool.noConfusion hq
    rcases hlm : List.lookup m fs with _ | fdm
    · refine ⟨fd, ?_, [], (List.append_nil _).symm⟩
      simp only [processFile, hq, hlm, if_true]
      exact h
    · rcases hj : fdm.asJson with _ | r
      · refine ⟨fd, ?_, [], (List.append_nil _).symm⟩
        simp only [processFile, hq, hlm, hj, if_true]
        exact h
      · rcases hp : matchSensorPattern m with _ | ⟨day, sid⟩
        · refine ⟨fd, ?_, [], (List.append_nil _).symm⟩
          simp only [processFile, hq, hlm, hj, hp, if_true]
          exact h
        · rw [processFile_write hq hlm hj hp]
          by_cases hc : n = day ++ "-" ++ sid ++ ".csv"
          · subst hc
            rw [lookup_eraseFile_ne _ hmn.symm]
            rw [lookup_setFile_self]
            rw [h]
            exact ⟨_, rfl, [rowOf (removeKeys r)], rfl⟩
          · rw [lookup_eraseFile_ne _ hmn.symm]
            rw [lookup_setFile_ne _ _ hc]
            exact ⟨fd, h, [], (List.append_nil _).symm⟩
  · rw [processFile_not_json fs (Bool.not_eq_true _ ▸ hq)]
    exact ⟨fd, h, [], (List.append_nil _).symm⟩

theorem fold_append_only (ms : List String) {fs : FS} {n : String}
    {fd : FData} (hn : endsJson n = false)
    (h : List.lookup n fs = some fd) :
    ∃ fd1, List.lookup n (ms.foldl processFile fs) = some fd1 ∧
      ∃ t, fd1.asRows = fd.asRows ++ t := by
  induction ms generalizing fs fd with
  | nil => exact ⟨fd, h, [], (List.append_nil _).symm⟩
  | cons m ms' ih =>
    obtain ⟨fd1, h1, t1, ht1⟩ := processFile_append_only m hn h
    obtain ⟨fd2, h2, t2, ht2⟩ := ih h1
    exact ⟨fd2, h2, t1 ++ t2, by rw [ht2, ht1, List.append_assoc]⟩

theorem processFile_preserves_none {fs : FS} {n : String} (m : String)
    (hn : endsJson n = true) (h : List.lookup n fs = none) :
    List.lookup n (processFile fs m) = none := by
  by_cases hm : m = n
  · subst hm
    unfold processFile
    rw [hn, if_pos rfl, h]
    exact h
  · rw [processFile_frame_json m hn hm]
    exact h

theorem fold_preserves_none (ms : List String) {fs : FS} {n : String}
    (hn : endsJson n = true) (h : List.lookup n fs = none) :
    List.lookup n (ms.foldl processFile fs) = none := by
  induction ms generalizing fs with
  | nil => exact h
  | cons m ms' ih => exact ih (processFile_preserves_none m hn h)

theorem fold_frame_json (ms : List String) {fs : FS} {n : String}
    (hn : endsJson n = true) (hms : ∀ m ∈ ms, m ≠ n) :
    List.lookup n (ms.foldl processFile fs) = List.lookup n fs := by
  induction ms generalizing fs with
  | nil => rfl
  | cons m ms' ih =>
    rw [List.foldl_cons]
    rw [ih (fun m' hm' => hms m' (List.mem_cons_of_mem m hm'))]
    exact processFile_frame_json m hn (hms m (List.mem_cons_self m ms'))

theorem foldl_popKey_eq_filter (ks : List String) (r : Record) :
    ks.foldl popKey r = r.filter (fun kv => decide (kv.1 ∉ ks)) := by
  induction ks generalizing r with
  | nil => simp
  | cons k ks' ih =>
    rw [List.foldl_cons, ih]
    unfold popKey
    rw [List.filter_filter]
    apply List.filter_congr
    intro kv _
    simp [List.mem_cons, not_or, Bool.and_comm]

theorem removeKeys_eq_filter (r : Record) :
    removeKeys r = r.filter (fun kv => decide (kv.1 ∉ keys_to_exclude)) :=
  foldl_popKey_eq_filter keys_to_exclude r

theorem map_fst_filter (r : Record) (q : String → Bool) :
    (r.filter (fun kv => q kv.1)).map Prod.fst
      = (r.map Prod.fst).filter q := by
  induction r with
  | nil => rfl
  | cons kv r' ih =>
    simp only [List.filter_cons, List.map_cons]
    cases h : q kv.1 <;> simp [h, ih]

/-- Claim C4: for every decoded record, the field set persisted by the
transformer is the record's field set minus the four denylisted field
names; each denylisted field is removed whenever present, regardless of
its value (the filter looks only at the field name), absence is not an
error, and removal is idempotent. -/
theorem c4_denylist_removal :
    (∀ r : Record, headerOf (removeKeys r)
        = (headerOf r).filter (fun k => decide (k ∉ keys_to_exclude))) ∧
    (∀ (r : Record) (k : String), k ∈ keys_to_exclude →
      k ∉ headerOf (removeKeys r)) ∧
    (∀ r : Record, removeKeys (removeKeys r) = removeKeys r) := by
  refine ⟨?_, ?_, ?_⟩
  · intro r
    rw [removeKeys_eq_filter]
    unfold headerOf
    exact map_fst_filter r (fun k => decide (k ∉ keys_to_exclude))
  · intro r k hk hmem
    rw [removeKeys_eq_filter] at hmem
    unfold headerOf at hmem
    rw [map_fst_filter r (fun k => decide (k ∉ keys_to_exclude))] at hmem
    obtain ⟨_, hdec⟩ := List.mem_filter.1 hmem
    rw [decide_eq_true_eq] at hdec
    exact hdec hk
  · intro r
    rw [removeKeys_eq_filter, removeKeys_eq_filter, List.filter_filter]
    apply List.filter_congr
    intro kv _
    rw [Bool.and_self]

theorem c4_denylist_removal_witness :
    headerOf (removeKeys [("DATA_GREENHOUSE_ID", "g7"), ("temp", "21"),
        ("DATA_MOBILE_NUM", "0917")])
      = (headerOf [("DATA_GREENHOUSE_ID", "g7"), ("temp", "21"),
        ("DATA_MOBILE_NUM", "0917")]).filter
          (fun k => decide (k ∉ keys_to_exclude)) ∧
    "DATA_GREENHOUSE_ID" ∈ keys_to_exclude ∧
    "DATA_GREENHOUSE_ID" ∉ headerOf (removeKeys [("DATA_GREENHOUSE_ID", "g7"),
        ("temp", "21"), ("DATA_MOBILE_NUM", "0917")]) ∧
    headerOf (removeKeys [("DATA_GREENHOUSE_ID", "g7"), ("temp", "21"),
        ("DATA_MOBILE_NUM", "0917")]) = ["temp"] :=
  ⟨c4_denylist_removal.1 _,
   by decide,
   c4_denylist_removal.2.1 _ "DATA_GREENHOUSE_ID" (by decide),
   by decide⟩

theorem fold_bad_preserved (ms : List String) {fs : FS} {n : String}
    {fd : FData} (hn : endsJson n = true)
    (hbad : fd.asJson = none ∨ matchSensorPattern n = none)
    (h : List.lookup n fs = some fd) :
    List.lookup n (ms.foldl processFile fs) = some fd := by
  induction ms generalizing fs with
  | nil => exact h
  | cons m ms' ih =>
    rw [List.foldl_cons]
    apply ih
    by_cases hm : m = n
    · subst hm
      rw [processFile_skip hn h hbad]
      exact h
    · rw [processFile_frame_json m hn hm]
      exact h

/-- Claim C10: the transformer only ever decodes, transforms or deletes
files whose names end in `.json`.  The per-file step is the identity on
any other filename, and every file whose name does not end in `.json` —
in particular the `.csv` row-files the transformer itself writes — still
exists after the whole run, with its previous rows intact (rows are only
ever appended, never truncated, and the file is never deleted). -/
theorem c10_only_json_touched :
    (∀ (fs : FS) (n : String), endsJson n = false →
      processFile fs n = fs) ∧
    (∀ (fs : FS) (n : String) (fd : FData), endsJson n = false →
      List.lookup n fs = some fd →
      ∃ fd1, List.lookup n (process_json_files_to_csv fs) = some fd1 ∧
        ∃ t, fd1.asRows = fd.asRows ++ t) :=
  ⟨fun fs _ h => processFile_not_json fs h,
   fun _ _ _ h hl => fold_append_only _ h hl⟩

theorem c10_only_json_touched_witness :
    endsJson "2025-03-05-AB12.csv" = false ∧
    processFile [("2025-03-05-AB12.csv", ⟨none, [["t"], ["1"]]⟩),
        ("2025-03-05_00-01-18-AB12-sensor-data.json",
          ⟨some [("t", "2")], []⟩)] "2025-03-05-AB12.csv"
      = [("2025-03-05-AB12.csv", ⟨none, [["t"], ["1"]]⟩),
        ("2025-03-05_00-01-18-AB12-sensor-data.json",
          ⟨some [("t", "2")], []⟩)] ∧
    (∃ fd1, List.lookup "2025-03-05-AB12.csv"
        (process_json_files_to_csv
          [("2025-03-05-AB12.csv", ⟨none, [["t"], ["1"]]⟩),
           ("2025-03-05_00-01-18-AB12-sensor-data.json",
             ⟨some [("t", "2")], []⟩)]) = some fd1 ∧
      ∃ t, fd1.asRows = [["t"], ["1"]] ++ t) :=
  ⟨by decide,
   c10_only_json_touched.1 _ "2025-03-05-AB12.csv" (by decide),
   c10_only_json_touched.2 _ "2025-03-05-AB12.csv" ⟨none, [["t"], ["1"]]⟩
     (by decide) (by decide)⟩

/-- Claim C5: a staged `.json` file that fails to decode to a JSON
object, or whose name does not match the naming pattern, is logged and
skipped: its per-file step leaves the directory unchanged (no output row
is written, the file is not deleted), the file still exists unchanged
after the whole run, and — the step being a fold over the remaining
listing — processing continues with the other files. -/
theorem c5_bad_file_skipped :
    ∀ (fs : FS) (n : String) (fd : FData), endsJson n = true →
      List.lookup n fs = some fd →
      (fd.asJson = none ∨ matchSensorPattern n = none) →
      processFile fs n = fs ∧
      List.lookup n (process_json_files_to_csv fs) = some fd :=
  fun _ _ _ hn hl hbad =>
    ⟨processFile_skip hn hl hbad, fold_bad_preserved _ hn hbad hl⟩

theorem c5_bad_file_skipped_witness :
    endsJson "corrupt.json" = true ∧
    endsJson "2025-03-05_readme.json" = true ∧
    (⟨none, []⟩ : FData).asJson = none ∧
    matchSensorPattern "2025-03-05_readme.json" = none ∧
    (processFile [("corrupt.json", ⟨none, []⟩),
        ("2025-03-05_readme.json", ⟨some [("t", "1")], []⟩)] "corrupt.json"
      = [("corrupt.json", ⟨none, []⟩),
         ("2025-03-05_readme.json", ⟨some [("t", "1")], []⟩)] ∧
     List.lookup "corrupt.json"
        (process_json_files_to_csv [("corrupt.json", ⟨none, []⟩),
          ("2025-03-05_readme.json", ⟨some [("t", "1")], []⟩)])
       = some ⟨none, []⟩) ∧
    (processFile [("corrupt.json", ⟨none, []⟩),
        ("2025-03-05_readme.json", ⟨some [("t", "1")], []⟩)]
          "2025-03-05_readme.json"
      = [("corrupt.json", ⟨none, []⟩),
         ("2025-03-05_readme.json", ⟨some [("t", "1")], []⟩)] ∧
     List.lookup "2025-03-05_readme.json"
        (process_json_files_to_csv [("corrupt.json", ⟨none, []⟩),
          ("2025-03-05_readme.json", ⟨some [("t", "1")], []⟩)])
       = some ⟨some [("t", "1")], []⟩) :=
  ⟨by decide, by decide, rfl, by decide,
   c5_bad_file_skipped _ "corrupt.json" ⟨none, []⟩ (by decide) (by decide)
     (Or.inl rfl),
   c5_bad_file_skipped _ "2025-03-05_readme.json" ⟨some [("t", "1")], []⟩
     (by decide) (by decide) (Or.inr (by decide))⟩

theorem lookup_some_mem {fs : FS} {n : String} {fd : FData}
    (h : List.lookup n fs = some fd) : n ∈ fs.map Prod.fst := by
  induction fs with
  | nil => exact Option.noConfusion h
  | cons p fs' ih =>
    obtain ⟨k, v⟩ := p
    by_cases hk : n = k
    · subst hk
      exact List.mem_cons_self _ _
    · rw [lookup_cons_ne _ _ hk] at h
      exact List.mem_cons_of_mem _ (ih h)

/-- Claim C6: a staged `.json` file that is successfully processed
(decoded to a JSON object and matching the naming pattern) is deleted by
the run, and its row is written before the deletion: the per-file step
first appends the cleaned row to the output row-file and only then
erases the staged file, so after the whole run the staged file is gone
while the output row-file contains its row. -/
theorem c6_processed_file_deleted :
    ∀ (fs : FS) (n day sid : String) (fd : FData) (r : Record),
      (fs.map Prod.fst).Nodup →
      List.lookup n fs = some fd → endsJson n = true →
      fd.asJson = some r → matchSensorPattern n = some (day, sid) →
      List.lookup n (process_json_files_to_csv fs) = none ∧
      ∃ e, List.lookup (day ++ "-" ++ sid ++ ".csv")
          (process_json_files_to_csv fs) = some e ∧
        rowOf (removeKeys r) ∈ e.asRows := by
  intro fs n day sid fd r hnd hl hn hj hp
  have hmem : n ∈ fs.map Prod.fst := lookup_some_mem hl
  obtain ⟨p, q, hsplit⟩ := List.append_of_mem hmem
  rw [hsplit, List.nodup_append] at hnd
  obtain ⟨hpnd, hqnd, hdisj⟩ := hnd
  have hnp : n ∉ p := fun hin => hdisj hin (List.mem_cons_self _ _)
  have hnq : n ∉ q := (List.nodup_cons.1 hqnd).1
  have hcn : n ≠ day ++ "-" ++ sid ++ ".csv" := json_ne_csvName hn
  have hcjson : endsJson (day ++ "-" ++ sid ++ ".csv") = false :=
    endsJson_append_csv (day ++ "-" ++ sid)
  unfold process_json_files_to_csv
  rw [hsplit, List.foldl_append, List.foldl_cons]
  have h1 : List.lookup n (p.foldl processFile fs) = some fd := by
    rw [fold_frame_json p hn (fun m hm he => hnp (he ▸ hm))]
    exact hl
  rw [processFile_write hn h1 hj hp]
  constructor
  · apply fold_preserves_none q hn
    exact lookup_eraseFile_self _ n
  · have h2 : List.lookup (day ++ "-" ++ sid ++ ".csv")
        (eraseFile (setFile (p.foldl processFile fs)
          (day ++ "-" ++ sid ++ ".csv")
          ⟨none,
            match List.lookup (day ++ "-" ++ sid ++ ".csv")
                (p.foldl processFile fs) with
            | some e => e.asRows ++ [rowOf (removeKeys r)]
            | none => [headerOf (removeKeys r), rowOf (removeKeys r)]⟩) n)
        = some ⟨none,
            match List.lookup (day ++ "-" ++ sid ++ ".csv")
                (p.foldl processFile fs) with
            | some e => e.asRows ++ [rowOf (removeKeys r)]
            | none => [headerOf (removeKeys r), rowOf (removeKeys r)]⟩ := by
      rw [lookup_eraseFile_ne _ (fun he => hcn he.symm)]
      exact lookup_setFile_self _ _ _
    obtain ⟨e, he, t, ht⟩ := fold_append_only q hcjson h2
    refine ⟨e, he, ?_⟩
    rw [ht]
    apply List.mem_append_left
    rcases hlc : List.lookup (day ++ "-" ++ sid ++ ".csv")
        (p.foldl processFile fs) with _ | e0
    · simp
    · simp

theorem c6_processed_file_deleted_witness :
    (([("2025-03-05_00-01-18-AB12-sensor-data.json",
        (⟨some [("t", "2")], []⟩ : FData))] : FS).map Prod.fst).Nodup ∧
    List.lookup "2025-03-05_00-01-18-AB12-sensor-data.json"
        ([("2025-03-05_00-01-18-AB12-sensor-data.json",
          (⟨some [("t", "2")], []⟩ : FData))] : FS)
      = some ⟨some [("t", "2")], []⟩ ∧
    (List.lookup "2025-03-05_00-01-18-AB12-sensor-data.json"
        (process_json_files_to_csv
          [("2025-03-05_00-01-18-AB12-sensor-data.json",
            ⟨some [("t", "2")], []⟩)]) = none ∧
     ∃ e, List.lookup ("2025-03-05" ++ "-" ++ "AB12" ++ ".csv")
          (process_json_files_to_csv
            [("2025-03-05_00-01-18-AB12-sensor-data.json",
              ⟨some [("t", "2")], []⟩)]) = some e ∧
        rowOf (removeKeys [("t", "2")]) ∈ e.asRows) :=
  ⟨by decide, by decide,
   c6_processed_file_deleted _ "2025-03-05_00-01-18-AB12-sensor-data.json"
     "2025-03-05" "AB12" ⟨some [("t", "2")], []⟩ [("t", "2")]
     (by decide) (by decide) (by decide) rfl (by decide)⟩

/-- Claim C3: a header row is written only when the output row-file does
not yet exist (using the current record's field names in their order),
and later records for the same (day, sensor-set) are appended without
truncating existing content; consequently, processing a directory that
holds exactly two staged files for the same (day, sensor-set) with
identical field sets yields a row-file with exactly one header row
followed by the two data rows in processing order. -/
theorem c3_header_once_append :
    (∀ (fs : FS) (n day sid : String) (fd : FData) (r : Record),
      endsJson n = true → List.lookup n fs = some fd →
      fd.asJson = some r → matchSensorPattern n = some (day, sid) →
      (List.lookup (day ++ "-" ++ sid ++ ".csv") fs = none →
        List.lookup (day ++ "-" ++ sid ++ ".csv") (processFile fs n)
          = some ⟨none, [headerOf (removeKeys r), rowOf (removeKeys r)]⟩) ∧
      (∀ e, List.lookup (day ++ "-" ++ sid ++ ".csv") fs = some e →
        List.lookup (day ++ "-" ++ sid ++ ".csv") (processFile fs n)
          = some ⟨none, e.asRows ++ [rowOf (removeKeys r)]⟩)) ∧
    (∀ (n1 n2 day sid : String) (fd1 fd2 : FData) (r1 r2 : Record),
      n1 ≠ n2 → endsJson n1 = true → endsJson n2 = true →
      fd1.asJson = some r1 → fd2.asJson = some r2 →
      matchSensorPattern n1 = some (day, sid) →
      matchSensorPattern n2 = some (day, sid) →
      headerOf r1 = headerOf r2 →
      List.lookup (day ++ "-" ++ sid ++ ".csv")
          (process_json_files_to_csv [(n1, fd1), (n2, fd2)])
        = some ⟨none, [headerOf (removeKeys r1), rowOf (removeKeys r1),
            rowOf (removeKeys r2)]⟩) := by
  constructor
  · intro fs n day sid fd r hn hl hj hp
    have hcn : n ≠ day ++ "-" ++ sid ++ ".csv" := json_ne_csvName hn
    constructor
    · intro hnone
      rw [processFile_write hn hl hj hp, hnone,
        lookup_eraseFile_ne _ (fun he => hcn he.symm)]
      exact lookup_setFile_self _ _ _
    · intro e hsome
      rw [processFile_write hn hl hj hp, hsome,
        lookup_eraseFile_ne _ (fun he => hcn he.symm)]
      exact lookup_setFile_self _ _ _
  · intro n1 n2 day sid fd1 fd2 r1 r2 h12 hn1 hn2 hj1 hj2 hp1 hp2 hflds
    have hc1 : n1 ≠ day ++ "-" ++ sid ++ ".csv" := json_ne_csvName hn1
    have hc2 : n2 ≠ day ++ "-" ++ sid ++ ".csv" := json_ne_csvName hn2
    unfold process_json_files_to_csv
    rw [show (([(n1, fd1), (n2, fd2)] : FS).map Prod.fst) = [n1, n2]
      from rfl]
    rw [List.foldl_cons, List.foldl_cons, List.foldl_nil]
    have hl1 : List.lookup n1 ([(n1, fd1), (n2, fd2)] : FS) = some fd1 :=
      lookup_cons_eq _ _ _
    have hlc0 : List.lookup (day ++ "-" ++ sid ++ ".csv")
        ([(n1, fd1), (n2, fd2)] : FS) = none := by
      rw [lookup_cons_ne _ _ (fun he => hc1 he.symm),
        lookup_cons_ne _ _ (fun he => hc2 he.symm)]
      rfl
    rw [processFile_write hn1 hl1 hj1 hp1, hlc0]
    have hset1 : setFile ([(n1, fd1), (n2, fd2)] : FS)
        (day ++ "-" ++ sid ++ ".csv")
        ⟨none, [headerOf (removeKeys r1), rowOf (removeKeys r1)]⟩
      = [(n1, fd1), (n2, fd2), (day ++ "-" ++ sid ++ ".csv",
          ⟨none, [headerOf (removeKeys r1), rowOf (removeKeys r1)]⟩)] := by
      unfold setFile
      rw [hlc0]
      rfl
    rw [hset1]
    have hers1 : eraseFile [(n1, fd1), (n2, fd2),
        (day ++ "-" ++ sid ++ ".csv",
          ⟨none, [headerOf (removeKeys r1), rowOf (removeKeys r1)]⟩)] n1
      = [(n2, fd2), (day ++ "-" ++ sid ++ ".csv",
          ⟨none, [headerOf (removeKeys r1), rowOf (removeKeys r1)]⟩)] := by
      unfold eraseFile
      rw [List.filter_cons_of_neg (by simp)]
      rw [List.filter_cons_of_pos
        (by simp only [decide_eq_true_eq]; exact fun he => h12 he.symm)]
      rw [List.filter_cons_of_pos
        (by simp only [decide_eq_true_eq]; exact fun he => hc1 he.symm)]
      rfl
    rw [hers1]
    have hl2 : List.lookup n2 ([(n2, fd2), (day ++ "-" ++ sid ++ ".csv",
        (⟨none, [headerOf (removeKeys r1), rowOf (removeKeys r1)]⟩
          : FData))] : FS) = some fd2 := lookup_cons_eq _ _ _
    have hlc1 : List.lookup (day ++ "-" ++ sid ++ ".csv")
        ([(n2, fd2), (day ++ "-" ++ sid ++ ".csv",
          (⟨none, [headerOf (removeKeys r1), rowOf (removeKeys r1)]⟩
            : FData))] : FS)
      = some ⟨none, [headerOf (removeKeys r1), rowOf (removeKeys r1)]⟩ := by
      rw [lookup_cons_ne _ _ (fun he => hc2 he.symm)]
      exact lookup_cons_eq _ _ _
    rw [processFile_write hn2 hl2 hj2 hp2, hlc1]
    rw [lookup_eraseFile_ne _ (fun he => hc2 he.symm)]
    exact lookup_setFile_self _ _ _

theorem c3_header_once_append_witness :
    (List.lookup ("2025-03-05" ++ "-" ++ "AB12" ++ ".csv")
        ([("2025-03-05_00-01-18-AB12-sensor-data.json",
          (⟨some [("t", "2")], []⟩ : FData))] : FS) = none →
      List.lookup ("2025-03-05" ++ "-" ++ "AB12" ++ ".csv")
        (processFile [("2025-03-05_00-01-18-AB12-sensor-data.json",
          ⟨some [("t", "2")], []⟩)]
          "2025-03-05_00-01-18-AB12-sensor-data.json")
        = some ⟨none, [headerOf (removeKeys [("t", "2")]),
            rowOf (removeKeys [("t", "2")])]⟩) ∧
    List.lookup ("2025-03-05" ++ "-" ++ "AB12" ++ ".csv")
        (process_json_files_to_csv
          [("2025-03-05_00-01-18-AB12-sensor-data.json",
            ⟨some [("t", "2")], []⟩),
           ("2025-03-05_00-01-19-AB12-sensor-data.json",
            ⟨some [("t", "3")], []⟩)])
      = some ⟨none, [headerOf (removeKeys [("t", "2")]),
          rowOf (removeKeys [("t", "2")]), rowOf (removeKeys [("t", "3")])]⟩ :=
  ⟨(c3_header_once_append.1 _ "2025-03-05_00-01-18-AB12-sensor-data.json"
      "2025-03-05" "AB12" ⟨some [("t", "2")], []⟩ [("t", "2")]
      (by decide) (by decide) rfl (by decide)).1,
   c3_header_once_append.2 "2025-03-05_00-01-18-AB12-sensor-data.json"
     "2025-03-05_00-01-19-AB12-sensor-data.json" "2025-03-05" "AB12"
     ⟨some [("t", "2")], []⟩ ⟨some [("t", "3")], []⟩ [("t", "2")] [("t", "3")]
     (by decide) (by decide) (by decide) rfl rfl (by decide) (by decide) rfl⟩

/-!
Range Fetcher: `download_files_by_date_range` (src lines 59-95).

The S3 client is the external collaborator: listing a key prefix either
fails (a raised exception, logged and skipped) or yields the object keys
under the prefix (an absent `Contents` field behaves like an empty key
list: in both cases no object of that day is fetched); downloading an
object either succeeds, writing `os.path.basename(key)` into the
download directory, or fails and is skipped.  The function's observable
effects are collected in a `FetchResult`: whether the download directory
was created (`os.makedirs` runs first, before the dates are parsed),
the listing requests issued, the download requests issued, the local
file names written, and the uncaught exception if one escaped.
-/

/-- The remote object store, as consumed by the fetcher. -/
structure S3 where
  listObjects : String → Except Unit (List String)
  downloadOk : String → Bool

/-- The per-day key prefix `f"{device_id}/sensor-data/{date_str}"`
(src line 74). -/
def keyPrefix (device_id date_str : String) : String :=
  device_id ++ "/sensor-data/" ++ date_str

/-- `os.path.basename`: the part of the key after the last slash. -/
def baseName (key : String) : String :=
  String.mk ((key.toList.reverse.takeWhile (fun c => decide (c ≠ '/'))).reverse)

/-- Observable outcome of one fetcher run. -/
structure FetchResult where
  dirCreated : Bool
  listCalls : List String
  getCalls : List String
  written : List String
  err : Option DateErr
deriving DecidableEq, Repr

/-- Body of the `for date_str in date_range` loop (src lines 73-95):
list the day's prefix (a listing failure logs and continues with the
next day), then attempt to download every listed object (a download
failure logs and continues with the next object). -/
def fetchStep (s3 : S3) (device_id : String) (acc : FetchResult)
    (date_str : String) : FetchResult :=
  match s3.listObjects (keyPrefix device_id date_str) with
  | .error _ =>
    { acc with listCalls := acc.listCalls ++ [keyPrefix device_id date_str] }
  | .ok keys =>
    { acc with
      listCalls := acc.listCalls ++ [keyPrefix device_id date_str],
      getCalls := acc.getCalls ++ keys,
      written := acc.written ++ (keys.filter s3.downloadOk).map baseName }

/-- `download_files_by_date_range` (src lines 59-95): `os.makedirs` runs
first, then `get_date_range` parses both dates — so `dirCreated` is true
even when a date error aborts the run — and then the per-day loop
executes. -/
def download_files_by_date_range (s3 : S3)
    (device_id start_date end_date : String) : FetchResult :=
  match get_date_range start_date end_date with
  | .error er =>
    { dirCreated := true, listCalls := [], getCalls := [], written := [],
      err := some er }
  | .ok days =>
    days.foldl (fetchStep s3 device_id)
      { dirCreated := true, listCalls := [], getCalls := [], written := [],
        err := none }

/-- The keys a single day contributes ([] when its listing fails). -/
def dayKeys (s3 : S3) (device_id d : String) : List String :=
  match s3.listObjects (keyPrefix device_id d) with
  | .error _ => []
  | .ok keys => keys

/-- The local files a single day's downloads write. -/
def dayWritten (s3 : S3) (device_id d : String) : List String :=
  match s3.listObjects (keyPrefix device_id d) with
  | .error _ => []
  | .ok keys => (keys.filter s3.downloadOk).map baseName

theorem fetch_foldl (s3 : S3) (dev : String) (days : List String)
    (acc : FetchResult) :
    days.foldl (fetchStep s3 dev) acc =
      { acc with
        listCalls := acc.listCalls ++ days.map (keyPrefix dev),
        getCalls := acc.getCalls ++ (days.map (dayKeys s3 dev)).flatten,
        written :=
          acc.written ++ (days.map (dayWritten s3 dev)).flatten } := by
  induction days generalizing acc with
  | nil =>
    cases acc
    simp
  | cons d days' ih =>
    rw [List.foldl_cons, ih]
    rcases h : s3.listObjects (keyPrefix dev d) with _ | keys <;>
      simp [fetchStep, dayKeys, dayWritten, h]

/-- Claim C7 (amended): when either top-level date input is malformed,
the run fails with the `ValueError` of `strptime` (the spec's
`FormatError`), and no network activity happens — no listing request,
no download request, nothing written; the destination directory,
however, IS created, because `os.makedirs(download_dir, exist_ok=True)`
(src line 70) runs before `get_date_range` parses the dates (src line
71).  The unamended claim asserts that the directory is not created;
the counterexample refutes that at a concrete malformed input. -/
theorem c7_format_error_aborts (s3 : S3)
    (device_id start_date end_date : String)
    (h : parseDate start_date = none ∨ parseDate end_date = none) :
    download_files_by_date_range s3 device_id start_date end_date
      = { dirCreated := true, listCalls := [], getCalls := [],
          written := [], err := some .format } := by
  unfold download_files_by_date_range
  rcases h with h | h
  · rw [get_date_range_format_left h]
  · rw [get_date_range_format_right h]

theorem c7_format_error_aborts_witness :
    parseDate "2025-99-01" = none ∧
    download_files_by_date_range ⟨fun _ => .ok [], fun _ => true⟩
        "10000000837b7735" "2025-99-01" "2025-03-09"
      = { dirCreated := true, listCalls := [], getCalls := [],
          written := [], err := some .format } :=
  ⟨by decide,
   c7_format_error_aborts ⟨fun _ => .ok [], fun _ => true⟩
     "10000000837b7735" "2025-99-01" "2025-03-09" (Or.inl (by decide))⟩

/-- Counterexample to claim C7 as stated: with the malformed start date
"2025-99-01" the fetcher still creates the destination directory
(`os.makedirs` precedes date parsing), contradicting "leaves the
filesystem unchanged (the destination directory is not created)". -/
theorem c7_counterexample :
    (download_files_by_date_range ⟨fun _ => .ok [], fun _ => true⟩
        "10000000837b7735" "2025-99-01" "2025-03-09").dirCreated = true ∧
    (download_files_by_date_range ⟨fun _ => .ok [], fun _ => true⟩
        "10000000837b7735" "2025-99-01" "2025-03-09").err
      = some .format := by
  constructor <;> rfl

/-- Claim C8: in a multi-day range, a listing failure for one day skips
only that day — the loop still issues a listing request for every day of
the range, and the files written are exactly the per-day contributions
of the other days, concatenated in range order; likewise, a download
failure for one object skips only that object — the day still writes
the downloadable objects around it, in order. -/
theorem c8_partial_failure :
    (∀ (s3 : S3) (dev s e : String) (days l1 l2 : List String)
        (d0 : String),
      get_date_range s e = .ok days → days = l1 ++ d0 :: l2 →
      s3.listObjects (keyPrefix dev d0) = .error () →
      (download_files_by_date_range s3 dev s e).written
        = (l1.map (dayWritten s3 dev)).flatten
          ++ (l2.map (dayWritten s3 dev)).flatten ∧
      (download_files_by_date_range s3 dev s e).listCalls
        = days.map (keyPrefix dev)) ∧
    (∀ (s3 : S3) (dev d : String) (keys k1 k2 : List String)
        (k0 : String),
      s3.listObjects (keyPrefix dev d) = .ok keys →
      keys = k1 ++ k0 :: k2 → s3.downloadOk k0 = false →
      dayWritten s3 dev d
        = (k1.filter s3.downloadOk).map baseName
          ++ (k2.filter s3.downloadOk).map baseName) := by
  constructor
  · intro s3 dev s e days l1 l2 d0 hget hsplit herr
    unfold download_files_by_date_range
    rw [hget]
    dsimp only
    rw [fetch_foldl]
    have hd0 : dayWritten s3 dev d0 = [] := by
      unfold dayWritten
      rw [herr]
    constructor
    · rw [hsplit]
      simp [hd0]
    · rfl
  · intro s3 dev d keys k1 k2 k0 hok hsplit h0
    unfold dayWritten
    rw [hok, hsplit]
    dsimp only
    rw [List.filter_append, List.filter_cons_of_neg (by rw [h0]; simp)]
    rw [List.map_append]

theorem gdr_march :
    get_date_range "2025-03-01" "2025-03-03"
      = .ok ["2025-03-01", "2025-03-02", "2025-03-03"] := by
  have h1 : parseDate "2025-03-01" = some ⟨2025, 3, 1⟩ := by decide
  have h3 : parseDate "2025-03-03" = some ⟨2025, 3, 3⟩ := by decide
  have hv : ValidDate (⟨2025, 3, 1⟩ : Date) := by decide
  rw [get_date_range_ok h1 h3 hv]
  rw [rangeLoop_step hv (by decide) (by decide)]
  rw [rangeLoop_step (nextDay_valid hv (by decide)) (by decide) (by decide)]
  rw [rangeLoop_step
    (nextDay_valid (nextDay_valid hv (by decide)) (by decide))
    (by decide) (by decide)]
  rw [rangeLoop_stop
    (nextDay_valid (nextDay_valid (nextDay_valid hv (by decide)) (by decide))
      (by decide))
    (by decide)]
  rfl

theorem c8_partial_failure_witness :
    get_date_range "2025-03-01" "2025-03-03"
      = .ok ["2025-03-01", "2025-03-02", "2025-03-03"] ∧
    (⟨fun p => if p = "10000000837b7735/sensor-data/2025-03-02"
        then .error () else .ok [p ++ "/r.json"], fun _ => true⟩
      : S3).listObjects (keyPrefix "10000000837b7735" "2025-03-02")
      = .error () ∧
    ((download_files_by_date_range
        ⟨fun p => if p = "10000000837b7735/sensor-data/2025-03-02"
          then .error () else .ok [p ++ "/r.json"], fun _ => true⟩
        "10000000837b7735" "2025-03-01" "2025-03-03").written
      = ((["2025-03-01"] : List String).map
          (dayWritten ⟨fun p =>
            if p = "10000000837b7735/sensor-data/2025-03-02"
            then .error () else .ok [p ++ "/r.json"], fun _ => true⟩
            "10000000837b7735")).flatten
        ++ ((["2025-03-03"] : List String).map
          (dayWritten ⟨fun p =>
            if p = "10000000837b7735/sensor-data/2025-03-02"
            then .error () else .ok [p ++ "/r.json"], fun _ => true⟩
            "10000000837b7735")).flatten ∧
     (download_files_by_date_range
        ⟨fun p => if p = "10000000837b7735/sensor-data/2025-03-02"
          then .error () else .ok [p ++ "/r.json"], fun _ => true⟩
        "10000000837b7735" "2025-03-01" "2025-03-03").listCalls
      = (["2025-03-01", "2025-03-02", "2025-03-03"] : List String).map
          (keyPrefix "10000000837b7735")) :=
  ⟨gdr_march, rfl,
   c8_partial_failure.1
     ⟨fun p => if p = "10000000837b7735/sensor-data/2025-03-02"
       then .error () else .ok [p ++ "/r.json"], fun _ => true⟩
     "10000000837b7735" "2025-03-01" "2025-03-03"
     ["2025-03-01", "2025-03-02", "2025-03-03"]
     ["2025-03-01"] ["2025-03-03"] "2025-03-02"
     gdr_march rfl rfl⟩

/-- Modelled from the spec: `validate_date_string(text) → Day Key |
fails with FormatError`.  The source under src/ has no such function —
its `__main__` block hardcodes the two dates — and the spec places the
interactive entry point out of scope, describing only that it validates
each date string and returns it unchanged on success.  Validation is the
same `strptime`-style check the Range Fetcher applies. -/
def validate_date_string (text : String) : Except DateErr String :=
  if (parseDate text).isSome then .ok text else .error .format

/-- Modelled from the spec: the interactive entry point reads two date
strings, validates each via `validate_date_string`, and only when both
succeed invokes the Range Fetcher (returning its result); a validation
failure aborts before the fetcher runs (`none`). -/
def mainRun (s3 : S3) (device_id start_date end_date : String) :
    Option FetchResult :=
  match validate_date_string start_date, validate_date_string end_date with
  | .ok s, .ok e => some (download_files_by_date_range s3 device_id s e)
  | _, _ => none

/-- Claim C9 (spec-modelled): `validate_date_string` succeeds on every
well-formed `YYYY-MM-DD` calendar date string and returns that same
value; it fails with `FormatError` on every malformed input, such as
"2025-13-40"; and the entry point rejects malformed dates before
invoking the Range Fetcher. -/
theorem c9_validate_date_string :
    (∀ d : Date, ValidDate d →
      validate_date_string (formatDate d) = .ok (formatDate d)) ∧
    (∀ s : String, parseDate s = none →
      validate_date_string s = .error .format) ∧
    validate_date_string "2025-13-40" = .error .format ∧
    validate_date_string "2025-03-01" = .ok "2025-03-01" ∧
    (∀ (s3 : S3) (device_id start_date end_date : String),
      parseDate start_date = none ∨ parseDate end_date = none →
      mainRun s3 device_id start_date end_date = none) := by
  have hok : ∀ s : String, (parseDate s).isSome →
      validate_date_string s = .ok s := by
    intro s hs
    unfold validate_date_string
    rw [if_pos hs]
  have hbad : ∀ s : String, parseDate s = none →
      validate_date_string s = .error .format := by
    intro s hs
    unfold validate_date_string
    rw [if_neg (by rw [hs]; simp)]
  refine ⟨?_, hbad, hbad _ (by decide), hok _ (by decide), ?_⟩
  · intro d hd
    exact hok _ (by rw [parse_format hd]; rfl)
  · intro s3 device_id start_date end_date h
    unfold mainRun
    rcases h with h | h
    · rw [hbad _ h]
    · rw [hbad _ h]
      rcases validate_date_string start_date with _ | s <;> rfl

theorem c9_validate_date_string_witness :
    ValidDate ⟨2025, 3, 1⟩ ∧
    validate_date_string (formatDate ⟨2025, 3, 1⟩)
      = .ok (formatDate ⟨2025, 3, 1⟩) ∧
    validate_date_string "2025-13-40" = .error .format ∧
    validate_date_string "2025-03-01" = .ok "2025-03-01" ∧
    parseDate "2025-13-40" = none ∧
    mainRun ⟨fun _ => .ok [], fun _ => true⟩
      "10000000837b7735" "2025-13-40" "2025-03-01" = none :=
  ⟨by decide,
   c9_validate_date_string.1 ⟨2025, 3, 1⟩ (by decide),
   c9_validate_date_string.2.2.1,
   c9_validate_date_string.2.2.2.1,
   by decide,
   c9_validate_date_string.2.2.2.2 ⟨fun _ => .ok [], fun _ => true⟩
     "10000000837b7735" "2025-13-40" "2025-03-01" (Or.inl (by decide))⟩
